import Mathlib

/-!
Shallow embedding of the witness-generation core of this repository:

* the RETURNDATACOPY step/copy-event builder
  (src/bus-mapping/src/evm/opcodes/returndatacopy.rs), and
* the dual-representation state database EvmDatabase
  (src/revm-executor/src/database.rs).

Machine words (U256, u64, addresses, hashes) are modelled as Nat, with an
explicit truncation modulo 2 ^ 64 where the source truncates.  Byte buffers
are lists of Nat.  The cryptographic trie is treated, per the specification,
as an opaque content-derived store: its root is modelled as the leaf map
itself, and a per-account storage sub-trie root as the slot map itself.
-/

/-- Association-list lookup, first match wins (models a map `get`). -/
def mapLookup {α : Type} (k : Nat) : List (Nat × α) → Option α
  | [] => none
  | (k2, v) :: rest => if k = k2 then some v else mapLookup k rest

/-- Association-list insert-or-replace (models a map `insert`).  The entry is
placed at the first position whose key is not smaller than `k`, so maps built
only by `mapInsert` stay sorted and hence canonical. -/
def mapInsert {α : Type} (k : Nat) (v : α) : List (Nat × α) → List (Nat × α)
  | [] => [(k, v)]
  | (k2, v2) :: rest =>
      if k < k2 then (k, v) :: (k2, v2) :: rest
      else if k = k2 then (k, v) :: rest
      else (k2, v2) :: mapInsert k v rest

/-- Association-list removal of every entry with key `k` (models a map `remove`). -/
def mapRemove {α : Type} (k : Nat) : List (Nat × α) → List (Nat × α)
  | [] => []
  | (k2, v2) :: rest => if k2 = k then mapRemove k rest else (k2, v2) :: mapRemove k rest

/-! ### bus-mapping: operations, steps, copy events -/

/-- Call-context fields read by RETURNDATACOPY (operation::CallContextField). -/
inductive CallContextField
  | LastCalleeId
  | LastCalleeReturnDataOffset
  | LastCalleeReturnDataLength
  deriving DecidableEq

/-- One row of the operation log (operation::Operation), restricted to the
kinds emitted by the RETURNDATACOPY builder. -/
inductive Operation
  | stackRead (addr : Nat) (value : Nat)
  | callContextRead (call_id : Nat) (field : CallContextField) (value : Nat)
  | memoryRead (addr : Nat) (value : Nat)
  | memoryWrite (addr : Nat) (value : Nat)
  deriving DecidableEq

/-- circuit_input_builder::CopyDataType, restricted to the variants used here. -/
inductive CopyDataType
  | Memory
  | Bytecode
  deriving DecidableEq

/-- circuit_input_builder::NumberOrHash. -/
inductive NumberOrHash
  | Number (n : Nat)
  | Hash (h : Nat)
  deriving DecidableEq

/-- circuit_input_builder::CopyEvent. -/
structure CopyEvent where
  src_type : CopyDataType
  src_id : NumberOrHash
  src_addr : Nat
  src_addr_end : Nat
  dst_type : CopyDataType
  dst_id : NumberOrHash
  dst_addr : Nat
  log_id : Option Nat
  rw_counter_start : Nat
  bytes : List Nat
  aux_bytes : Option (List Nat)
  deriving DecidableEq

/-- circuit_input_builder::ExecStep, restricted to the fields the claims need:
its ordered operation rows and the copy event attached to it. -/
structure ExecStep where
  pc : Nat
  ops : List Operation
  copy_event : Option CopyEvent
  deriving DecidableEq

/-- The current call's bookkeeping (circuit_input_builder::Call), restricted to
the fields read by RETURNDATACOPY. -/
structure Call where
  call_id : Nat
  last_callee_id : Nat
  last_callee_return_data_offset : Nat
  last_callee_return_data_length : Nat
  deriving DecidableEq

/-- The current call's buffers (circuit_input_builder::CallContext). -/
structure CallContext where
  memory : List Nat
  return_data : List Nat
  deriving DecidableEq

/-- circuit_input_builder::CircuitInputStateRef, restricted to the current
call, its context, and the global row counter (block_ctx.rwc). -/
structure CircuitInputStateRef where
  call : Call
  call_ctx : CallContext
  rwc : Nat
  deriving DecidableEq

/-- eth_types::GethExecStep, restricted to pc and the stack.  The head of the
stack list is the top of the stack. -/
structure GethExecStep where
  pc : Nat
  stack : List Nat
  deriving DecidableEq

/-- The recoverable error surfaced by the builders (bus_mapping::Error),
restricted to the stack-underflow failure the claims mention. -/
inductive Error
  | stackUnderflow
  deriving DecidableEq

/-- Result of running a builder: a Rust panic, a recoverable `Err`, or `Ok`. -/
inductive Outcome (α : Type)
  | panic
  | err (e : Error)
  | ok (a : α)
  deriving DecidableEq

/-- Whether an outcome is `Ok`. -/
def Outcome.isOk {α : Type} : Outcome α → Bool
  | .ok _ => true
  | _ => false

/-- Modelled from the spec: eth_types Stack::nth_last is not under src/.
`nth_last i` reads the i-th element from the top; a too-short stack surfaces
as the stack-underflow failure of section 4.1. -/
def nth_last (stack : List Nat) (i : Nat) : Outcome Nat :=
  match stack.get? i with
  | some v => Outcome.ok v
  | none => Outcome.err Error.stackUnderflow

/-- Modelled from the spec: eth_types Stack::nth_last_filled is not under
src/.  It tags a stack read with its absolute depth in the 1024-slot stack. -/
def nth_last_filled (stack : List Nat) (i : Nat) : Nat :=
  1024 - stack.length + i

/-- Modelled from the spec: CircuitInputStateRef::new_step is not under src/.
It creates the execution-step record for one opcode, with no rows yet. -/
def new_step (geth : GethExecStep) : ExecStep :=
  { pc := geth.pc, ops := [], copy_event := none }

/-- Modelled from the spec: CircuitInputStateRef::stack_read is not under
src/.  Per section 4.1 it appends one stack-read Operation row, tagged with
its stack depth and value, and advances the global row counter by one. -/
def stack_read (st : CircuitInputStateRef) (step : ExecStep) (addr value : Nat) :
    ExecStep × CircuitInputStateRef :=
  ({ step with ops := step.ops ++ [Operation.stackRead addr value] },
   { st with rwc := st.rwc + 1 })

/-- Modelled from the spec: CircuitInputStateRef::call_context_read is not
under src/.  It appends one call-context read row and advances the counter. -/
def call_context_read (st : CircuitInputStateRef) (step : ExecStep)
    (call_id : Nat) (field : CallContextField) (value : Nat) :
    ExecStep × CircuitInputStateRef :=
  ({ step with ops := step.ops ++ [Operation.callContextRead call_id field value] },
   { st with rwc := st.rwc + 1 })

/-- gen_returndatacopy_step (returndatacopy.rs lines 40-88): three stack
reads of (memory offset, data offset, length), the defensive assertion that
the recorded return-data length equals the buffered return data's length
(a panic on mismatch), then three call-context reads. -/
def gen_returndatacopy_step (st : CircuitInputStateRef) (geth : GethExecStep) :
    Outcome (ExecStep × CircuitInputStateRef) :=
  match nth_last geth.stack 0, nth_last geth.stack 1, nth_last geth.stack 2 with
  | Outcome.ok memory_offset, Outcome.ok data_offset, Outcome.ok length =>
      let step0 := new_step geth
      let p1 := stack_read st step0 (nth_last_filled geth.stack 0) memory_offset
      let p2 := stack_read p1.2 p1.1 (nth_last_filled geth.stack 1) data_offset
      let p3 := stack_read p2.2 p2.1 (nth_last_filled geth.stack 2) length
      let call_id := p3.2.call.call_id
      let return_data_len := p3.2.call_ctx.return_data.length
      if p3.2.call.last_callee_return_data_length = return_data_len then
        let q1 := call_context_read p3.2 p3.1 call_id CallContextField.LastCalleeId
          p3.2.call.last_callee_id
        let q2 := call_context_read q1.2 q1.1 call_id
          CallContextField.LastCalleeReturnDataOffset
          q1.2.call.last_callee_return_data_offset
        let q3 := call_context_read q2.2 q2.1 call_id
          CallContextField.LastCalleeReturnDataLength return_data_len
        Outcome.ok (q3.1, q3.2)
      else Outcome.panic
  | _, _, _ => Outcome.err Error.stackUnderflow

/-- Operation rows emitted by the bulk-copy loop, one block per copy index:
inside the available source range a read row and a write row, past its end
only a zero write row. -/
def copyOps (src : Nat → Nat) (src_addr src_addr_end dst_addr : Nat) :
    List Nat → List Operation
  | [] => []
  | i :: rest =>
      (if src_addr + i < src_addr_end then
        [Operation.memoryRead (src_addr + i) (src (src_addr + i)),
         Operation.memoryWrite (dst_addr + i) (src (src_addr + i))]
      else
        [Operation.memoryWrite (dst_addr + i) 0]) ++
      copyOps src src_addr src_addr_end dst_addr rest

/-- Modelled from the spec: CircuitInputStateRef::gen_copy_steps_for_return_data
is not under src/.  Per section 4.2, for i in [0, length): if
src_addr + i < src_addr_end the byte is read from the source and recorded as a
read Operation, and the same value is recorded as a write Operation at
dst_addr + i; otherwise the written byte is zero and no read Operation is
emitted for that index.  Returns (read trace, write trace, emitted rows). -/
def gen_copy_steps_for_return_data (src : Nat → Nat)
    (src_addr src_addr_end dst_addr length : Nat) :
    List Nat × List Nat × List Operation :=
  let idx := List.range length
  ((idx.filter (fun i => src_addr + i < src_addr_end)).map (fun i => src (src_addr + i)),
   idx.map (fun i => if src_addr + i < src_addr_end then src (src_addr + i) else 0),
   copyOps src src_addr src_addr_end dst_addr idx)

/-- gen_copy_event (returndatacopy.rs lines 90-131).  The destination offset
is truncated to its low 64 bits; for the data offset and the length the
source uses as_u64, which panics when the operand exceeds u64. -/
def gen_copy_event (st : CircuitInputStateRef) (geth : GethExecStep) :
    Outcome (CopyEvent × CircuitInputStateRef) :=
  let rw_counter_start := st.rwc
  match nth_last geth.stack 0, nth_last geth.stack 1, nth_last geth.stack 2 with
  | Outcome.ok dst_w, Outcome.ok data_w, Outcome.ok len_w =>
      let dst_addr := dst_w % 2 ^ 64
      if data_w < 2 ^ 64 ∧ len_w < 2 ^ 64 then
        let src_addr := st.call.last_callee_return_data_offset + data_w
        let src_addr_end := st.call.last_callee_return_data_offset +
          st.call.last_callee_return_data_length
        let source := fun a =>
          st.call_ctx.return_data.getD (a - st.call.last_callee_return_data_offset) 0
        let steps := gen_copy_steps_for_return_data source src_addr src_addr_end
          dst_addr len_w
        Outcome.ok
          ({ src_type := CopyDataType.Memory,
             src_id := NumberOrHash.Number st.call.last_callee_id,
             src_addr := src_addr,
             src_addr_end := src_addr_end,
             dst_type := CopyDataType.Memory,
             dst_id := NumberOrHash.Number st.call.call_id,
             dst_addr := dst_addr,
             log_id := none,
             rw_counter_start := rw_counter_start,
             bytes := steps.1,
             aux_bytes := some steps.2.1 },
           { st with rwc := st.rwc + steps.2.2.length })
      else Outcome.panic
  | _, _, _ => Outcome.err Error.stackUnderflow

/-- Modelled from the spec: bus-mapping Memory::copy_from is not under src/.
Per section 4.2, the destination is zero-extended up to dst_offset + length if
needed, and bytes [dst_offset, dst_offset + length) are overwritten with the
source bytes, zero past the end of the source buffer. -/
def Memory.copy_from (mem : List Nat) (dst_offset src_offset length : Nat)
    (data : List Nat) : List Nat :=
  if length = 0 then mem
  else
    let grown := mem ++ List.replicate (dst_offset + length - mem.length) 0
    (List.range grown.length).map (fun a =>
      if dst_offset ≤ a ∧ a < dst_offset + length then
        data.getD (src_offset + (a - dst_offset)) 0
      else grown.getD a 0)

/-- Modelled from the spec: CircuitInputStateRef::push_copy is not under src/.
It attaches the copy event to the execution step that triggered it. -/
def push_copy (step : ExecStep) (ev : CopyEvent) : ExecStep :=
  { step with copy_event := some ev }

/-- Returndatacopy::gen_associated_ops (returndatacopy.rs lines 14-37):
build the step, replay the copy into the caller's memory, build and attach
the copy event. -/
def Returndatacopy.gen_associated_ops (st : CircuitInputStateRef)
    (geth : GethExecStep) : Outcome (List ExecStep × CircuitInputStateRef) :=
  match gen_returndatacopy_step st geth with
  | Outcome.panic => Outcome.panic
  | Outcome.err e => Outcome.err e
  | Outcome.ok q =>
      match nth_last geth.stack 0, nth_last geth.stack 1, nth_last geth.stack 2 with
      | Outcome.ok dst_offset, Outcome.ok src_offset, Outcome.ok length =>
          let st2 := { q.2 with call_ctx := { q.2.call_ctx with
            memory := Memory.copy_from q.2.call_ctx.memory dst_offset src_offset length
              q.2.call_ctx.return_data } }
          match gen_copy_event st2 geth with
          | Outcome.panic => Outcome.panic
          | Outcome.err e => Outcome.err e
          | Outcome.ok r => Outcome.ok ([push_copy q.1 r.1], r.2)
      | _, _, _ => Outcome.err Error.stackUnderflow

/-! ### revm-executor: the dual-representation state database -/

/-- Modelled from the spec: bus-mapping state_db::Account is not under src/.
Section 3's Account record of the Flat State Store. -/
structure Account where
  nonce : Nat
  balance : Nat
  code_hash : Nat
  keccak_code_hash : Nat
  code_size : Nat
  storage : List (Nat × Nat)
  deriving DecidableEq

/-- The zero-valued Account used for never-touched addresses.  The empty code
hash is modelled as 0. -/
def Account.zero : Account :=
  { nonce := 0, balance := 0, code_hash := 0, keccak_code_hash := 0,
    code_size := 0, storage := [] }

/-- Emptiness of a flat-store account: zero nonce, zero balance, empty code. -/
def Account.is_empty (a : Account) : Bool :=
  a.nonce == 0 && a.balance == 0 && a.code_hash == 0

/-- Modelled from the spec: bus-mapping state_db::StateDB is not under src/.
Section 4.3's Flat State Store. -/
structure StateDB where
  state : List (Nat × Account)
  deriving DecidableEq

/-- get(address) -> (exists, Account), zero-valued account when absent. -/
def StateDB.get_account (sdb : StateDB) (addr : Nat) : Bool × Account :=
  match mapLookup addr sdb.state with
  | some acc => (true, acc)
  | none => (false, Account.zero)

/-- Store an account record. -/
def StateDB.set_account (sdb : StateDB) (addr : Nat) (acc : Account) : StateDB :=
  { state := mapInsert addr acc sdb.state }

/-- get_storage(address, key) -> (exists, value), defaulting to zero. -/
def StateDB.get_storage (sdb : StateDB) (addr key : Nat) : Bool × Nat :=
  match mapLookup addr sdb.state with
  | some acc =>
      match mapLookup key acc.storage with
      | some v => (true, v)
      | none => (false, 0)
  | none => (false, 0)

/-- Trie-side account leaf (mpt_zktrie AccountData).  The storage sub-trie
root is modelled as the canonical slot map itself, since the specification
treats the trie as an opaque content-derived store. -/
structure TrieAccountData where
  nonce : Nat
  balance : Nat
  code_size : Nat
  poseidon_code_hash : Nat
  keccak_code_hash : Nat
  storage_root : List (Nat × Nat)
  deriving DecidableEq

/-- AccountData::default: all fields zero, empty storage sub-trie. -/
def TrieAccountData.zero : TrieAccountData :=
  { nonce := 0, balance := 0, code_size := 0, poseidon_code_hash := 0,
    keccak_code_hash := 0, storage_root := [] }

/-- The cryptographic state trie, modelled as its account leaf map. -/
structure ZkTrie where
  accounts : List (Nat × TrieAccountData)
  deriving DecidableEq

/-- get_account on the trie. -/
def ZkTrie.get_account (t : ZkTrie) (addr : Nat) : Option TrieAccountData :=
  mapLookup addr t.accounts

/-- update_account on the trie. -/
def ZkTrie.update_account (t : ZkTrie) (addr : Nat) (d : TrieAccountData) : ZkTrie :=
  { accounts := mapInsert addr d t.accounts }

/-- The trie root: a content-derived commitment, modelled as the leaf map. -/
def ZkTrie.root (t : ZkTrie) : List (Nat × TrieAccountData) :=
  t.accounts

/-- One storage-slot diff entry from the execution engine (revm StorageSlot):
the slot's value before the transaction and its final value. -/
structure StorageSlot where
  original_value : Nat
  present_value : Nat
  deriving DecidableEq

/-- revm AccountInfo. -/
structure AccountInfo where
  balance : Nat
  nonce : Nat
  code_hash : Nat
  keccak_code_hash : Nat
  code : Option (List Nat)
  deriving DecidableEq

/-- One account's post-state in the engine diff (revm Account). -/
structure RevmAccount where
  info : AccountInfo
  storage : List (Nat × StorageSlot)
  deriving DecidableEq

/-- revm Account::is_empty: zero nonce, zero balance, empty code hash. -/
def RevmAccount.is_empty (a : RevmAccount) : Bool :=
  a.info.nonce == 0 && a.info.balance == 0 && a.info.code_hash == 0

/-- database.rs EvmDatabase. -/
structure EvmDatabase where
  tx_id : Nat
  code_db : List (Nat × List Nat)
  sdb : StateDB
  zktrie : ZkTrie
  deriving DecidableEq

/-- EvmDatabase::root (database.rs lines 72-74). -/
def EvmDatabase.root (db : EvmDatabase) : List (Nat × TrieAccountData) :=
  db.zktrie.root

/-- The uninhabited error type of the database's read interface
(std::convert::Infallible). -/
def Infallible : Type := Empty

instance : DecidableEq Infallible := fun a _ => (a : Empty).elim

/-- basic_ref (database.rs lines 81-106): look the address up in the flat
store; when it exists return its info with the bytecode populated from the
code database (empty bytecode when the code database has no entry), when it
does not exist return None.  Never an error. -/
def basic_ref (db : EvmDatabase) (address : Nat) :
    Except Infallible (Option AccountInfo) :=
  let r := db.sdb.get_account address
  if r.1 then
    let code := (mapLookup r.2.code_hash db.code_db).getD []
    Except.ok (some
      { balance := r.2.balance, nonce := r.2.nonce, code_hash := r.2.code_hash,
        keccak_code_hash := r.2.keccak_code_hash, code := some code })
  else Except.ok none

/-- storage_ref (database.rs lines 114-120): read the slot from the flat
store, defaulting to zero.  Never an error. -/
def storage_ref (db : EvmDatabase) (address index : Nat) : Except Infallible Nat :=
  Except.ok (db.sdb.get_storage address index).2

/-- Result of a call that either panics unconditionally or yields a value. -/
inductive PanicOr (α : Type)
  | panics
  | value (a : α)
  deriving DecidableEq

/-- code_by_hash_ref (database.rs lines 109-111): unconditional panic. -/
def code_by_hash_ref (_db : EvmDatabase) (_code_hash : Nat) : PanicOr (List Nat) :=
  PanicOr.panics

/-- code_by_hash (database.rs lines 135-137): unconditional panic. -/
def code_by_hash (_db : EvmDatabase) (_code_hash : Nat) : PanicOr (List Nat) :=
  PanicOr.panics

/-- One storage-slot update of the commit loop (database.rs lines 185-204):
a nonzero new value is written into both the flat store's per-account map and
the storage sub-trie; a zero new value over a previously nonzero one removes
the slot from both; otherwise nothing happens. -/
def processStorageSlot (acc_storage trie : List (Nat × Nat)) (key : Nat)
    (slot : StorageSlot) : List (Nat × Nat) × List (Nat × Nat) :=
  if slot.present_value ≠ 0 then
    (mapInsert key slot.present_value acc_storage,
     mapInsert key slot.present_value trie)
  else if slot.original_value ≠ 0 then
    (mapRemove key acc_storage, mapRemove key trie)
  else (acc_storage, trie)

/-- The storage loop of commit, over all slots of one account's diff. -/
def processStorage (acc_storage trie : List (Nat × Nat)) :
    List (Nat × StorageSlot) → List (Nat × Nat) × List (Nat × Nat)
  | [] => (acc_storage, trie)
  | (key, slot) :: rest =>
      let p := processStorageSlot acc_storage trie key slot
      processStorage p.1 p.2 rest

/-- The balance update of commit (database.rs lines 209-213), applied to the
flat-store account and the trie leaf in lockstep. -/
def applyBalance (p : Account × TrieAccountData) (incoming : RevmAccount) :
    Account × TrieAccountData :=
  if p.1.balance ≠ incoming.info.balance then
    ({ p.1 with balance := incoming.info.balance },
     { p.2 with balance := incoming.info.balance })
  else p

/-- The nonce update of commit (database.rs lines 215-218). -/
def applyNonce (p : Account × TrieAccountData) (incoming : RevmAccount) :
    Account × TrieAccountData :=
  if p.1.nonce ≠ incoming.info.nonce then
    ({ p.1 with nonce := incoming.info.nonce },
     { p.2 with nonce := incoming.info.nonce })
  else p

/-- The code update of commit (database.rs lines 220-239): on an
empty-to-non-empty transition or a code-hash change, update both code hashes
and the code size in both representations. -/
def applyCode (p : Account × TrieAccountData) (was_empty : Bool)
    (incoming : RevmAccount) : Account × TrieAccountData :=
  let code_size := (incoming.info.code.map List.length).getD 0
  if (was_empty && !incoming.is_empty) = true ∨ p.1.code_hash ≠ incoming.info.code_hash then
    ({ p.1 with code_hash := incoming.info.code_hash,
                keccak_code_hash := incoming.info.keccak_code_hash,
                code_size := code_size },
     { p.2 with poseidon_code_hash := incoming.info.code_hash,
                keccak_code_hash := incoming.info.keccak_code_hash,
                code_size := code_size })
  else p

/-- The balance / nonce / code update block of commit (database.rs lines
209-239). -/
def applyInfoUpdates (acc : Account) (acc_data : TrieAccountData)
    (was_empty : Bool) (incoming : RevmAccount) : Account × TrieAccountData :=
  applyCode (applyNonce (applyBalance (acc, acc_data) incoming) incoming)
    was_empty incoming

/-- Body of the commit loop (database.rs lines 150-244) for one changed
address: skip when the account was empty and stays empty; otherwise apply the
storage diff to the flat account and the storage sub-trie, recompute the
sub-trie root, apply balance / nonce / code updates, and write the account
into both representations. -/
def commitAccount (db : EvmDatabase) (addr : Nat) (incoming : RevmAccount) :
    EvmDatabase :=
  let acc0 := (db.sdb.get_account addr).2
  if acc0.is_empty && incoming.is_empty then db
  else
    let acc_data0 := (db.zktrie.get_account addr).getD TrieAccountData.zero
    let sp :=
      if incoming.storage ≠ [] then
        processStorage acc0.storage acc_data0.storage_root incoming.storage
      else (acc0.storage, acc_data0.storage_root)
    let p := applyInfoUpdates { acc0 with storage := sp.1 }
      { acc_data0 with storage_root := sp.2 } acc0.is_empty incoming
    { db with sdb := db.sdb.set_account addr p.1,
              zktrie := db.zktrie.update_account addr p.2 }

/-- DatabaseCommit::commit (database.rs lines 149-247): process every changed
address, then advance the transaction counter by one. -/
def commit (db : EvmDatabase) (changes : List (Nat × RevmAccount)) : EvmDatabase :=
  let db1 := changes.foldl (fun d p => commitAccount d p.1 p.2) db
  { db1 with tx_id := db1.tx_id + 1 }

/-! ### Accessors used to state the theorems -/

/-- The operation rows of a successfully built RETURNDATACOPY step. -/
def stepOpsOf (st : CircuitInputStateRef) (geth : GethExecStep) :
    Option (List Operation) :=
  match gen_returndatacopy_step st geth with
  | Outcome.ok q => some q.1.ops
  | _ => none

/-- The copy event of a successful gen_copy_event run. -/
def copyEventOf (st : CircuitInputStateRef) (geth : GethExecStep) :
    Option CopyEvent :=
  match gen_copy_event st geth with
  | Outcome.ok q => some q.1
  | _ => none

/-- Whether the emitted rows contain a memory-read Operation at address `a`. -/
def readsAt (ops : List Operation) (a : Nat) : Bool :=
  ops.any (fun op => match op with
    | Operation.memoryRead b _ => b == a
    | _ => false)

/-- Whether basic_ref answers with an existing account. -/
def basicRefSome (db : EvmDatabase) (addr : Nat) : Bool :=
  match basic_ref db addr with
  | Except.ok (some _) => true
  | _ => false

/-- The code field basic_ref populates for an existing account. -/
def basicCodeOf (db : EvmDatabase) (addr : Nat) : Option (Option (List Nat)) :=
  match basic_ref db addr with
  | Except.ok (some i) => some i.code
  | _ => none

/-! ### Concrete sample values used by the witness theorems -/

/-- A sample call frame: call id 7, last callee 5, return data at offset 4 of
length 2. -/
def sampleCall : Call :=
  { call_id := 7, last_callee_id := 5, last_callee_return_data_offset := 4,
    last_callee_return_data_length := 2 }

/-- A sample state whose buffered return data matches the recorded length. -/
def sampleState : CircuitInputStateRef :=
  { call := sampleCall, call_ctx := { memory := [], return_data := [11, 22] },
    rwc := 0 }

/-- A sample state whose buffered return data contradicts the recorded length. -/
def sampleStateBad : CircuitInputStateRef :=
  { call := sampleCall, call_ctx := { memory := [], return_data := [11] },
    rwc := 0 }

/-- A sample non-empty flat-store account with one storage slot. -/
def sampleAccount : Account :=
  { nonce := 1, balance := 5, code_hash := 9, keccak_code_hash := 8,
    code_size := 0, storage := [(1, 10)] }

/-- The trie leaf matching sampleAccount. -/
def sampleLeaf : TrieAccountData :=
  { nonce := 1, balance := 5, code_size := 0, poseidon_code_hash := 9,
    keccak_code_hash := 8, storage_root := [(1, 10)] }

/-- A sample database holding sampleAccount at address 3. -/
def sampleDb : EvmDatabase :=
  { tx_id := 1, code_db := [], sdb := { state := [(3, sampleAccount)] },
    zktrie := { accounts := [(3, sampleLeaf)] } }

/-- An engine diff entry for an account that is and stays empty. -/
def emptyIncoming : RevmAccount :=
  { info := { balance := 0, nonce := 0, code_hash := 0, keccak_code_hash := 0,
              code := none },
    storage := [] }

/-- An engine diff entry writing slot 2 := 33 and deleting slot 1. -/
def sampleIncoming : RevmAccount :=
  { info := { balance := 5, nonce := 2, code_hash := 9, keccak_code_hash := 8,
              code := none },
    storage := [(1, { original_value := 10, present_value := 0 }),
                (2, { original_value := 0, present_value := 33 })] }

/-! ### Helper lemmas on the map operations -/

lemma mapLookup_mapInsert_self {α : Type} (k : Nat) (v : α) (m : List (Nat × α)) :
    mapLookup k (mapInsert k v m) = some v := by
  induction m with
  | nil => simp [mapInsert, mapLookup]
  | cons p t ih =>
      obtain ⟨k2, v2⟩ := p
      by_cases h1 : k < k2
      · simp [mapInsert, h1, mapLookup]
      · by_cases h2 : k = k2
        · simp [mapInsert, h1, h2, mapLookup]
        · simp [mapInsert, h1, h2, mapLookup, ih]

lemma mapLookup_mapInsert_ne {α : Type} (k j : Nat) (hkj : k ≠ j) (v : α)
    (m : List (Nat × α)) : mapLookup k (mapInsert j v m) = mapLookup k m := by
  induction m with
  | nil => simp [mapInsert, mapLookup, hkj]
  | cons p t ih =>
      obtain ⟨k2, v2⟩ := p
      by_cases h1 : j < k2
      · simp [mapInsert, h1, mapLookup, hkj]
      · by_cases h2 : j = k2
        · subst h2
          simp [mapInsert, h1, mapLookup, hkj]
        · simp [mapInsert, h1, h2, mapLookup, ih]

lemma mapLookup_mapRemove_self {α : Type} (k : Nat) (m : List (Nat × α)) :
    mapLookup k (mapRemove k m) = none := by
  induction m with
  | nil => rfl
  | cons p t ih =>
      obtain ⟨k2, v2⟩ := p
      by_cases h : k2 = k
      · simp [mapRemove, h, ih]
      · have h2 : k ≠ k2 := fun hh => h hh.symm
        simp [mapRemove, h, mapLookup, h2, ih]

lemma mapLookup_mapRemove_ne {α : Type} (k j : Nat) (hkj : k ≠ j)
    (m : List (Nat × α)) : mapLookup k (mapRemove j m) = mapLookup k m := by
  induction m with
  | nil => rfl
  | cons p t ih =>
      obtain ⟨k2, v2⟩ := p
      by_cases h : k2 = j
      · subst h
        simp [mapRemove, mapLookup, hkj, ih]
      · simp [mapRemove, h, mapLookup, ih]

/-! ### Helper lemmas on the storage-diff loop -/

lemma processStorageSlot_write (s t : List (Nat × Nat)) (k : Nat)
    (slot : StorageSlot) (h : slot.present_value ≠ 0) :
    processStorageSlot s t k slot =
      (mapInsert k slot.present_value s, mapInsert k slot.present_value t) := by
  unfold processStorageSlot
  rw [if_pos h]

lemma processStorageSlot_delete (s t : List (Nat × Nat)) (k : Nat)
    (slot : StorageSlot) (h0 : slot.present_value = 0)
    (h1 : slot.original_value ≠ 0) :
    processStorageSlot s t k slot = (mapRemove k s, mapRemove k t) := by
  unfold processStorageSlot
  rw [if_neg (fun hn => hn h0), if_pos h1]

lemma processStorageSlot_lookup_ne (k j : Nat) (hkj : k ≠ j)
    (s t : List (Nat × Nat)) (slot : StorageSlot) :
    mapLookup k (processStorageSlot s t j slot).1 = mapLookup k s ∧
    mapLookup k (processStorageSlot s t j slot).2 = mapLookup k t := by
  unfold processStorageSlot
  by_cases h1 : slot.present_value ≠ 0
  · rw [if_pos h1]
    exact ⟨mapLookup_mapInsert_ne k j hkj _ s, mapLookup_mapInsert_ne k j hkj _ t⟩
  · rw [if_neg h1]
    by_cases h2 : slot.original_value ≠ 0
    · rw [if_pos h2]
      exact ⟨mapLookup_mapRemove_ne k j hkj s, mapLookup_mapRemove_ne k j hkj t⟩
    · rw [if_neg h2]
      exact ⟨rfl, rfl⟩

lemma processStorage_lookup_of_not_mem (k : Nat) (slots : List (Nat × StorageSlot))
    (hk : k ∉ slots.map Prod.fst) (s t : List (Nat × Nat)) :
    mapLookup k (processStorage s t slots).1 = mapLookup k s ∧
    mapLookup k (processStorage s t slots).2 = mapLookup k t := by
  induction slots generalizing s t with
  | nil => exact ⟨rfl, rfl⟩
  | cons p rest ih =>
      obtain ⟨j, slot⟩ := p
      have hkj : k ≠ j := by
        intro hc
        exact hk (by simp [hc])
      have hk2 : k ∉ rest.map Prod.fst := by
        intro hc
        exact hk (by simp [hc])
      have hslot := processStorageSlot_lookup_ne k j hkj s t slot
      have hrest := ih hk2 (processStorageSlot s t j slot).1
        (processStorageSlot s t j slot).2
      simp only [processStorage]
      exact ⟨hrest.1.trans hslot.1, hrest.2.trans hslot.2⟩

lemma processStorage_lookup_mem (slots : List (Nat × StorageSlot))
    (hnd : (slots.map Prod.fst).Nodup) (k : Nat) (slot : StorageSlot)
    (hm : (k, slot) ∈ slots) (s t : List (Nat × Nat)) :
    (slot.present_value ≠ 0 →
      mapLookup k (processStorage s t slots).1 = some slot.present_value ∧
      mapLookup k (processStorage s t slots).2 = some slot.present_value) ∧
    (slot.present_value = 0 → slot.original_value ≠ 0 →
      mapLookup k (processStorage s t slots).1 = none ∧
      mapLookup k (processStorage s t slots).2 = none) := by
  induction slots generalizing s t with
  | nil => cases hm
  | cons p rest ih =>
      obtain ⟨j, slot2⟩ := p
      have hnd2 : j ∉ rest.map Prod.fst ∧ (rest.map Prod.fst).Nodup := by
        have hc : (j :: rest.map Prod.fst).Nodup := by simpa using hnd
        exact List.nodup_cons.mp hc
      rcases List.mem_cons.mp hm with heq | hmem
      · have hkj : k = j := congrArg Prod.fst heq
        have hss : slot = slot2 := congrArg Prod.snd heq
        subst hkj
        subst hss
        have hrest := processStorage_lookup_of_not_mem k rest hnd2.1
          (processStorageSlot s t k slot).1 (processStorageSlot s t k slot).2
        constructor
        · intro hpv
          simp only [processStorage]
          refine ⟨hrest.1.trans ?_, hrest.2.trans ?_⟩
          · rw [processStorageSlot_write s t k slot hpv]
            exact mapLookup_mapInsert_self k _ s
          · rw [processStorageSlot_write s t k slot hpv]
            exact mapLookup_mapInsert_self k _ t
        · intro hpv hov
          simp only [processStorage]
          refine ⟨hrest.1.trans ?_, hrest.2.trans ?_⟩
          · rw [processStorageSlot_delete s t k slot hpv hov]
            exact mapLookup_mapRemove_self k s
          · rw [processStorageSlot_delete s t k slot hpv hov]
            exact mapLookup_mapRemove_self k t
      · simp only [processStorage]
        exact ih hnd2.2 hmem (processStorageSlot s t j slot2).1
          (processStorageSlot s t j slot2).2

/-! ### Helper lemmas on the commit protocol -/

lemma applyBalance_preserves (p : Account × TrieAccountData) (i : RevmAccount) :
    (applyBalance p i).1.storage = p.1.storage ∧
    (applyBalance p i).2.storage_root = p.2.storage_root := by
  unfold applyBalance
  split
  · exact ⟨rfl, rfl⟩
  · exact ⟨rfl, rfl⟩

lemma applyNonce_preserves (p : Account × TrieAccountData) (i : RevmAccount) :
    (applyNonce p i).1.storage = p.1.storage ∧
    (applyNonce p i).2.storage_root = p.2.storage_root := by
  unfold applyNonce
  split
  · exact ⟨rfl, rfl⟩
  · exact ⟨rfl, rfl⟩

lemma applyCode_preserves (p : Account × TrieAccountData) (w : Bool)
    (i : RevmAccount) :
    (applyCode p w i).1.storage = p.1.storage ∧
    (applyCode p w i).2.storage_root = p.2.storage_root := by
  unfold applyCode
  split
  · exact ⟨rfl, rfl⟩
  · exact ⟨rfl, rfl⟩

lemma applyInfoUpdates_preserves (acc : Account) (d : TrieAccountData)
    (w : Bool) (i : RevmAccount) :
    (applyInfoUpdates acc d w i).1.storage = acc.storage ∧
    (applyInfoUpdates acc d w i).2.storage_root = d.storage_root := by
  unfold applyInfoUpdates
  have h1 := applyBalance_preserves (acc, d) i
  have h2 := applyNonce_preserves (applyBalance (acc, d) i) i
  have h3 := applyCode_preserves (applyNonce (applyBalance (acc, d) i) i) w i
  exact ⟨h3.1.trans (h2.1.trans h1.1), h3.2.trans (h2.2.trans h1.2)⟩

lemma commitAccount_skip (db : EvmDatabase) (addr : Nat) (incoming : RevmAccount)
    (h : ((db.sdb.get_account addr).2.is_empty && incoming.is_empty) = true) :
    commitAccount db addr incoming = db := by
  simp only [commitAccount]
  rw [if_pos h]

lemma commitAccount_tx_id (db : EvmDatabase) (addr : Nat)
    (incoming : RevmAccount) :
    (commitAccount db addr incoming).tx_id = db.tx_id := by
  simp only [commitAccount]
  split
  · rfl
  · rfl

lemma foldl_commitAccount_tx_id (changes : List (Nat × RevmAccount))
    (db : EvmDatabase) :
    (changes.foldl (fun d p => commitAccount d p.1 p.2) db).tx_id = db.tx_id := by
  induction changes generalizing db with
  | nil => rfl
  | cons p rest ih => rw [List.foldl_cons, ih, commitAccount_tx_id]

lemma foldl_commitAccount_skip (changes : List (Nat × RevmAccount))
    (db : EvmDatabase)
    (h : ∀ p ∈ changes, ((db.sdb.get_account p.1).2.is_empty && p.2.is_empty) = true) :
    changes.foldl (fun d p => commitAccount d p.1 p.2) db = db := by
  induction changes with
  | nil => rfl
  | cons p rest ih =>
      rw [List.foldl_cons, commitAccount_skip db p.1 p.2 (h p (List.mem_cons_self p rest))]
      exact ih (fun q hq => h q (List.mem_cons_of_mem p hq))

lemma commitAccount_storage_fields (db : EvmDatabase) (addr : Nat)
    (incoming : RevmAccount)
    (hskip : ((db.sdb.get_account addr).2.is_empty && incoming.is_empty) = false)
    (hne : incoming.storage ≠ []) :
    (mapLookup addr (commitAccount db addr incoming).sdb.state).map Account.storage =
      some (processStorage (db.sdb.get_account addr).2.storage
        ((db.zktrie.get_account addr).getD TrieAccountData.zero).storage_root
        incoming.storage).1 ∧
    (mapLookup addr (commitAccount db addr incoming).zktrie.accounts).map
        TrieAccountData.storage_root =
      some (processStorage (db.sdb.get_account addr).2.storage
        ((db.zktrie.get_account addr).getD TrieAccountData.zero).storage_root
        incoming.storage).2 := by
  have hskip2 : ¬(((db.sdb.get_account addr).2.is_empty && incoming.is_empty) = true) := by
    simp [hskip]
  simp only [commitAccount]
  rw [if_neg hskip2, if_pos hne]
  simp only [StateDB.set_account, ZkTrie.update_account]
  rw [mapLookup_mapInsert_self, mapLookup_mapInsert_self]
  simp only [Option.map_some']
  have hp := applyInfoUpdates_preserves
    { (db.sdb.get_account addr).2 with storage :=
        (processStorage (db.sdb.get_account addr).2.storage
          ((db.zktrie.get_account addr).getD TrieAccountData.zero).storage_root
          incoming.storage).1 }
    { (db.zktrie.get_account addr).getD TrieAccountData.zero with storage_root :=
        (processStorage (db.sdb.get_account addr).2.storage
          ((db.zktrie.get_account addr).getD TrieAccountData.zero).storage_root
          incoming.storage).2 }
    (db.sdb.get_account addr).2.is_empty incoming
  rw [hp.1, hp.2]
  exact ⟨rfl, rfl⟩

/-! ### Helper lemmas on the copy traces -/

lemma length_filter_range (L a e : Nat) :
    ((List.range L).filter (fun i => a + i < e)).length = min L (e - a) := by
  induction L with
  | zero => simp
  | succ n ih =>
      rw [List.range_succ, List.filter_append, List.length_append, ih]
      by_cases h : a + n < e
      · simp [h]
        omega
      · simp [h]
        omega

lemma map_range_getD (f : Nat → Nat) (L i : Nat) (h : i < L) :
    ((List.range L).map f).getD i 1 = f i := by
  rw [List.getD_eq_getElem?_getD, List.getElem?_map, List.getElem?_range h]
  rfl

lemma readsAt_copyOps (src : Nat → Nat) (sa se da v : Nat) (hv : se ≤ v)
    (l : List Nat) : readsAt (copyOps src sa se da l) v = false := by
  induction l with
  | nil => rfl
  | cons i rest ih =>
      by_cases h : sa + i < se
      · have hne : (sa + i == v) = false := by
          simp only [beq_eq_false_iff_ne]
          omega
        simpa [copyOps, readsAt, h, hne] using ih
      · simpa [copyOps, readsAt, h] using ih

lemma memWrite_mem_copyOps (src : Nat → Nat) (sa se da i : Nat) (l : List Nat)
    (hil : i ∈ l) (h : ¬(sa + i < se)) :
    Operation.memoryWrite (da + i) 0 ∈ copyOps src sa se da l := by
  induction l with
  | nil => cases hil
  | cons j rest ih =>
      rcases List.mem_cons.mp hil with heq | hmem
      · subst heq
        simp [copyOps, h]
      · by_cases hj : sa + j < se
        · simp only [copyOps]
          rw [if_pos hj]
          exact List.mem_append_right _ (ih hmem)
        · simp only [copyOps]
          rw [if_neg hj]
          exact List.mem_append_right _ (ih hmem)

/-! ### Claim theorems -/

/-- Claim C1: for a bulk copy with requested length L, source base src_addr
and source end src_addr_end, the written trace (aux_bytes) has exactly L
entries, the read trace (bytes) has exactly min(L, available) entries where
available = src_addr_end - src_addr (0 when the base is past the end), every
written byte at an index i with src_addr + i >= src_addr_end is zero, and for
such an index no read Operation row is emitted, only the write row. -/
theorem copy_truncation_law (src : Nat → Nat) (src_addr src_addr_end dst_addr L : Nat) :
    (gen_copy_steps_for_return_data src src_addr src_addr_end dst_addr L).2.1.length = L ∧
    (gen_copy_steps_for_return_data src src_addr src_addr_end dst_addr L).1.length =
      min L (src_addr_end - src_addr) ∧
    (∀ i, i < L → src_addr_end ≤ src_addr + i →
      (gen_copy_steps_for_return_data src src_addr src_addr_end dst_addr L).2.1.getD i 1 = 0 ∧
      readsAt (gen_copy_steps_for_return_data src src_addr src_addr_end dst_addr L).2.2
        (src_addr + i) = false ∧
      Operation.memoryWrite (dst_addr + i) 0 ∈
        (gen_copy_steps_for_return_data src src_addr src_addr_end dst_addr L).2.2) := by
  refine ⟨?_, ?_, ?_⟩
  · simp [gen_copy_steps_for_return_data]
  · simp only [gen_copy_steps_for_return_data, List.length_map]
    exact length_filter_range L src_addr src_addr_end
  · intro i hi hpast
    refine ⟨?_, ?_, ?_⟩
    · simp only [gen_copy_steps_for_return_data]
      rw [map_range_getD _ L i hi, if_neg (by omega)]
    · exact readsAt_copyOps src src_addr src_addr_end dst_addr (src_addr + i) hpast _
    · exact memWrite_mem_copyOps src src_addr src_addr_end dst_addr i (List.range L)
        (List.mem_range.mpr hi) (by omega)

/-- Witness for copy_truncation_law: length 5 copy over a source range
[2, 4), checked at the past-the-end index 3. -/
theorem copy_truncation_law_witness :
    (gen_copy_steps_for_return_data (fun a => a + 7) 2 4 10 5).2.1.getD 3 1 = 0 ∧
    readsAt (gen_copy_steps_for_return_data (fun a => a + 7) 2 4 10 5).2.2 5 = false ∧
    Operation.memoryWrite 13 0 ∈
      (gen_copy_steps_for_return_data (fun a => a + 7) 2 4 10 5).2.2 :=
  (copy_truncation_law (fun a => a + 7) 2 4 10 5).2.2 3 (by decide) (by decide)

/-- Claim C2: for a RETURNDATACOPY with stack (destination offset, source
offset, length) = (a, b, c), the generated CopyEvent has src_type = dst_type
= Memory, src_id the last callee's call id, dst_id the current call id,
src_addr = last_callee_return_data_offset + source offset, and src_addr_end =
last_callee_return_data_offset + last_callee_return_data_length. -/
theorem copy_event_fields (st : CircuitInputStateRef) (pc a b c : Nat)
    (rest : List Nat) (hb : b < 2 ^ 64) (hc : c < 2 ^ 64) :
    (copyEventOf st ⟨pc, a :: b :: c :: rest⟩).map CopyEvent.src_type =
      some CopyDataType.Memory ∧
    (copyEventOf st ⟨pc, a :: b :: c :: rest⟩).map CopyEvent.dst_type =
      some CopyDataType.Memory ∧
    (copyEventOf st ⟨pc, a :: b :: c :: rest⟩).map CopyEvent.src_id =
      some (NumberOrHash.Number st.call.last_callee_id) ∧
    (copyEventOf st ⟨pc, a :: b :: c :: rest⟩).map CopyEvent.dst_id =
      some (NumberOrHash.Number st.call.call_id) ∧
    (copyEventOf st ⟨pc, a :: b :: c :: rest⟩).map CopyEvent.src_addr =
      some (st.call.last_callee_return_data_offset + b) ∧
    (copyEventOf st ⟨pc, a :: b :: c :: rest⟩).map CopyEvent.src_addr_end =
      some (st.call.last_callee_return_data_offset +
        st.call.last_callee_return_data_length) := by
  have h0 : nth_last (a :: b :: c :: rest) 0 = Outcome.ok a := rfl
  have h1 : nth_last (a :: b :: c :: rest) 1 = Outcome.ok b := rfl
  have h2 : nth_last (a :: b :: c :: rest) 2 = Outcome.ok c := rfl
  have hbc : b < 2 ^ 64 ∧ c < 2 ^ 64 := ⟨hb, hc⟩
  simp only [copyEventOf, gen_copy_event, h0, h1, h2]
  rw [if_pos hbc]
  exact ⟨rfl, rfl, rfl, rfl, rfl, rfl⟩

/-- Witness for copy_event_fields at a concrete state and stack. -/
theorem copy_event_fields_witness :
    (copyEventOf sampleState ⟨0, [64, 1, 32]⟩).map CopyEvent.src_addr = some 5 ∧
    (copyEventOf sampleState ⟨0, [64, 1, 32]⟩).map CopyEvent.src_addr_end = some 6 :=
  ⟨(copy_event_fields sampleState 0 64 1 32 [] (by decide) (by decide)).2.2.2.2.1,
   (copy_event_fields sampleState 0 64 1 32 [] (by decide) (by decide)).2.2.2.2.2⟩

/-- Claim C3: a RETURNDATACOPY step built from a well-formed snapshot emits,
in order, a stack read of the destination offset at the top of the stack, a
stack read of the source offset, a stack read of the length, then exactly
three call-context reads of LastCalleeId, LastCalleeReturnDataOffset and
LastCalleeReturnDataLength. -/
theorem returndatacopy_step_rows (st : CircuitInputStateRef) (pc a b c : Nat)
    (rest : List Nat)
    (hlen : st.call.last_callee_return_data_length = st.call_ctx.return_data.length) :
    stepOpsOf st ⟨pc, a :: b :: c :: rest⟩ = some
      [Operation.stackRead (nth_last_filled (a :: b :: c :: rest) 0) a,
       Operation.stackRead (nth_last_filled (a :: b :: c :: rest) 1) b,
       Operation.stackRead (nth_last_filled (a :: b :: c :: rest) 2) c,
       Operation.callContextRead st.call.call_id CallContextField.LastCalleeId
         st.call.last_callee_id,
       Operation.callContextRead st.call.call_id
         CallContextField.LastCalleeReturnDataOffset
         st.call.last_callee_return_data_offset,
       Operation.callContextRead st.call.call_id
         CallContextField.LastCalleeReturnDataLength
         st.call_ctx.return_data.length] := by
  have h0 : nth_last (a :: b :: c :: rest) 0 = Outcome.ok a := rfl
  have h1 : nth_last (a :: b :: c :: rest) 1 = Outcome.ok b := rfl
  have h2 : nth_last (a :: b :: c :: rest) 2 = Outcome.ok c := rfl
  simp [stepOpsOf, gen_returndatacopy_step, h0, h1, h2, stack_read,
    call_context_read, new_step, hlen]

/-- Witness for returndatacopy_step_rows at a concrete state and stack. -/
theorem returndatacopy_step_rows_witness :
    stepOpsOf sampleState ⟨0, [64, 0, 32]⟩ = some
      [Operation.stackRead 1021 64, Operation.stackRead 1022 0,
       Operation.stackRead 1023 32,
       Operation.callContextRead 7 CallContextField.LastCalleeId 5,
       Operation.callContextRead 7 CallContextField.LastCalleeReturnDataOffset 4,
       Operation.callContextRead 7 CallContextField.LastCalleeReturnDataLength 2] :=
  returndatacopy_step_rows sampleState 0 64 0 32 [] (by decide)

/-- Claim C4: with three stack operands available, gen_returndatacopy_step
panics exactly when the recorded last_callee_return_data_length differs from
the buffered return data's length, and when they agree the assertion is
passed and the step is produced normally. -/
theorem returndatacopy_assert_panics (st : CircuitInputStateRef) (pc a b c : Nat)
    (rest : List Nat) :
    (gen_returndatacopy_step st ⟨pc, a :: b :: c :: rest⟩ = Outcome.panic ↔
      st.call.last_callee_return_data_length ≠ st.call_ctx.return_data.length) ∧
    (st.call.last_callee_return_data_length = st.call_ctx.return_data.length →
      (gen_returndatacopy_step st ⟨pc, a :: b :: c :: rest⟩).isOk = true) := by
  have h0 : nth_last (a :: b :: c :: rest) 0 = Outcome.ok a := rfl
  have h1 : nth_last (a :: b :: c :: rest) 1 = Outcome.ok b := rfl
  have h2 : nth_last (a :: b :: c :: rest) 2 = Outcome.ok c := rfl
  by_cases hlen : st.call.last_callee_return_data_length = st.call_ctx.return_data.length
  · refine ⟨⟨fun hp => ?_, fun hne => absurd hlen hne⟩, fun _ => ?_⟩
    · simp [gen_returndatacopy_step, h0, h1, h2, stack_read, call_context_read,
        new_step, hlen] at hp
    · simp [gen_returndatacopy_step, h0, h1, h2, stack_read, call_context_read,
        new_step, hlen, Outcome.isOk]
  · refine ⟨⟨fun _ => hlen, fun _ => ?_⟩, fun he => absurd he hlen⟩
    simp [gen_returndatacopy_step, h0, h1, h2, stack_read, call_context_read,
      new_step, hlen]

/-- Witness for returndatacopy_assert_panics: a state whose recorded length 2
contradicts its single-byte return buffer panics. -/
theorem returndatacopy_assert_panics_witness :
    gen_returndatacopy_step sampleStateBad ⟨0, [64, 0, 32]⟩ = Outcome.panic :=
  (returndatacopy_assert_panics sampleStateBad 0 64 0 32 []).1.mpr (by decide)

/-- Claim C5: with fewer than three stack operands,
Returndatacopy::gen_associated_ops returns the recoverable stack-underflow
error, not a panic, and produces no execution step. -/
theorem returndatacopy_stack_underflow (st : CircuitInputStateRef)
    (geth : GethExecStep) (h : geth.stack.length < 3) :
    Returndatacopy.gen_associated_ops st geth = Outcome.err Error.stackUnderflow := by
  obtain ⟨pc, stack⟩ := geth
  rcases stack with _ | ⟨a, _ | ⟨b, _ | ⟨c, rest⟩⟩⟩
  · rfl
  · rfl
  · rfl
  · exfalso
    simp at h
    omega

/-- Witness for returndatacopy_stack_underflow on a two-element stack. -/
theorem returndatacopy_stack_underflow_witness :
    Returndatacopy.gen_associated_ops sampleState ⟨0, [64, 0]⟩ =
      Outcome.err Error.stackUnderflow :=
  returndatacopy_stack_underflow sampleState ⟨0, [64, 0]⟩ (by decide)

/-- Claim C6: committing a diff in which every changed address was empty
before and stays empty skips every address entirely: the flat store, the
trie's leaf set and the trie root are all unchanged by the commit. -/
theorem commit_noop_diff (db : EvmDatabase) (changes : List (Nat × RevmAccount))
    (h : ∀ p ∈ changes, ((db.sdb.get_account p.1).2.is_empty && p.2.is_empty) = true) :
    (commit db changes).sdb = db.sdb ∧
    (commit db changes).zktrie = db.zktrie ∧
    (commit db changes).root = db.root := by
  have hf := foldl_commitAccount_skip changes db h
  simp only [commit, EvmDatabase.root, ZkTrie.root]
  rw [hf]
  exact ⟨rfl, rfl, rfl⟩

/-- Witness for commit_noop_diff: an absent (hence empty) address receiving
an empty post-state. -/
theorem commit_noop_diff_witness :
    (commit sampleDb [(4, emptyIncoming)]).sdb = sampleDb.sdb ∧
    (commit sampleDb [(4, emptyIncoming)]).root = sampleDb.root :=
  ⟨(commit_noop_diff sampleDb [(4, emptyIncoming)] (by decide)).1,
   (commit_noop_diff sampleDb [(4, emptyIncoming)] (by decide)).2.2⟩

/-- Claim C7: during commit of a non-empty storage diff for a processed
address with distinct slot keys, a slot whose new value is nonzero is written
into both the flat store's per-account map and the storage sub-trie, a slot
whose new value is zero over a previously nonzero value is removed from both,
and the committed trie leaf's storage root is the recomputed sub-trie
obtained by replaying the whole slot diff. -/
theorem commit_storage_slots (db : EvmDatabase) (addr : Nat)
    (incoming : RevmAccount)
    (hskip : ((db.sdb.get_account addr).2.is_empty && incoming.is_empty) = false)
    (hne : incoming.storage ≠ [])
    (hnd : (incoming.storage.map Prod.fst).Nodup)
    (k : Nat) (slot : StorageSlot) (hm : (k, slot) ∈ incoming.storage) :
    (slot.present_value ≠ 0 →
      (mapLookup addr (commitAccount db addr incoming).sdb.state).map
          (fun a => mapLookup k a.storage) = some (some slot.present_value) ∧
      (mapLookup addr (commitAccount db addr incoming).zktrie.accounts).map
          (fun d => mapLookup k d.storage_root) = some (some slot.present_value)) ∧
    (slot.present_value = 0 → slot.original_value ≠ 0 →
      (mapLookup addr (commitAccount db addr incoming).sdb.state).map
          (fun a => mapLookup k a.storage) = some none ∧
      (mapLookup addr (commitAccount db addr incoming).zktrie.accounts).map
          (fun d => mapLookup k d.storage_root) = some none) ∧
    (mapLookup addr (commitAccount db addr incoming).zktrie.accounts).map
        TrieAccountData.storage_root =
      some (processStorage (db.sdb.get_account addr).2.storage
        ((db.zktrie.get_account addr).getD TrieAccountData.zero).storage_root
        incoming.storage).2 := by
  have hcf := commitAccount_storage_fields db addr incoming hskip hne
  have hsl := processStorage_lookup_mem incoming.storage hnd k slot hm
    (db.sdb.get_account addr).2.storage
    ((db.zktrie.get_account addr).getD TrieAccountData.zero).storage_root
  rcases ho1 : mapLookup addr (commitAccount db addr incoming).sdb.state with _ | acc
  · rw [ho1] at hcf
    simp at hcf
  · rcases ho2 : mapLookup addr (commitAccount db addr incoming).zktrie.accounts with _ | dat
    · rw [ho2] at hcf
      simp at hcf
    · rw [ho1, ho2] at hcf
      have hs1 : acc.storage =
          (processStorage (db.sdb.get_account addr).2.storage
            ((db.zktrie.get_account addr).getD TrieAccountData.zero).storage_root
            incoming.storage).1 := by simpa using hcf.1
      have hs2 : dat.storage_root =
          (processStorage (db.sdb.get_account addr).2.storage
            ((db.zktrie.get_account addr).getD TrieAccountData.zero).storage_root
            incoming.storage).2 := by simpa using hcf.2
      simp only [Option.map_some']
      refine ⟨fun hpv => ?_, fun hpv hov => ?_, congrArg some hs2⟩
      · have hv := hsl.1 hpv
        exact ⟨by rw [hs1]; exact congrArg some hv.1,
               by rw [hs2]; exact congrArg some hv.2⟩
      · have hv := hsl.2 hpv hov
        exact ⟨by rw [hs1]; exact congrArg some hv.1,
               by rw [hs2]; exact congrArg some hv.2⟩

/-- Witness for commit_storage_slots: committing sampleIncoming to address 3
writes slot 2 := 33 into both representations. -/
theorem commit_storage_slots_witness :
    (mapLookup 3 (commitAccount sampleDb 3 sampleIncoming).sdb.state).map
        (fun a => mapLookup 2 a.storage) = some (some 33) ∧
    (mapLookup 3 (commitAccount sampleDb 3 sampleIncoming).zktrie.accounts).map
        (fun d => mapLookup 2 d.storage_root) = some (some 33) :=
  (commit_storage_slots sampleDb 3 sampleIncoming (by decide) (by decide)
    (by decide) 2 { original_value := 0, present_value := 33 } (by decide)).1
    (by decide)

/-- Claim C8: every commit advances the internal transaction counter by
exactly one, whatever the diff contains. -/
theorem commit_advances_tx_id (db : EvmDatabase)
    (changes : List (Nat × RevmAccount)) :
    (commit db changes).tx_id = db.tx_id + 1 := by
  show (changes.foldl (fun d p => commitAccount d p.1 p.2) db).tx_id + 1 = db.tx_id + 1
  rw [foldl_commitAccount_tx_id]

/-- Claim C9: flat-state reads never fail: basic_ref always returns Ok, with
None exactly for an absent account and Some for an existing one; storage_ref
always returns Ok of the stored value, zero when the address or slot is
absent; and the error type is uninhabited. -/
theorem flat_reads_never_fail (db : EvmDatabase) (addr idx : Nat) :
    (basic_ref db addr).isOk = true ∧
    ((mapLookup addr db.sdb.state).isNone = true →
      basic_ref db addr = Except.ok none) ∧
    ((mapLookup addr db.sdb.state).isSome = true → basicRefSome db addr = true) ∧
    storage_ref db addr idx = Except.ok (db.sdb.get_storage addr idx).2 ∧
    ((mapLookup addr db.sdb.state).isNone = true →
      storage_ref db addr idx = Except.ok 0) ∧
    IsEmpty Infallible := by
  refine ⟨?_, ?_, ?_, rfl, ?_, ⟨fun e => (e : Empty).elim⟩⟩
  · rcases h : mapLookup addr db.sdb.state with _ | acc
    · simp [basic_ref, StateDB.get_account, h, Except.isOk, Except.toBool]
    · simp [basic_ref, StateDB.get_account, h, Except.isOk, Except.toBool]
  · intro hnone
    simp [basic_ref, StateDB.get_account, Option.isNone_iff_eq_none.mp hnone]
  · intro hsome
    rcases Option.isSome_iff_exists.mp hsome with ⟨acc, hacc⟩
    simp [basicRefSome, basic_ref, StateDB.get_account, hacc]
  · intro hnone
    simp [storage_ref, StateDB.get_storage, Option.isNone_iff_eq_none.mp hnone]

/-- Witness for flat_reads_never_fail at an absent address of sampleDb. -/
theorem flat_reads_never_fail_witness :
    basic_ref sampleDb 5 = Except.ok none ∧ storage_ref sampleDb 5 0 = Except.ok 0 :=
  ⟨(flat_reads_never_fail sampleDb 5 0).2.1 (by decide),
   (flat_reads_never_fail sampleDb 5 0).2.2.2.2.1 (by decide)⟩

/-- Claim C10: code_by_hash_ref and code_by_hash panic unconditionally for
every hash input; they are never needed because basic_ref returns every
existing account with its bytecode already populated from the code database,
an empty bytecode when the code database has no entry for the code hash. -/
theorem code_lookup_unreachable (db : EvmDatabase) (h addr : Nat) (acc : Account) :
    code_by_hash_ref db h = PanicOr.panics ∧
    code_by_hash db h = PanicOr.panics ∧
    (mapLookup addr db.sdb.state = some acc →
      basicCodeOf db addr =
        some (some ((mapLookup acc.code_hash db.code_db).getD []))) := by
  refine ⟨rfl, rfl, fun hm => ?_⟩
  simp [basicCodeOf, basic_ref, StateDB.get_account, hm]

/-- Witness for code_lookup_unreachable: the sample database panics on code
lookup and populates the empty bytecode for the account at address 3. -/
theorem code_lookup_unreachable_witness :
    code_by_hash_ref sampleDb 0 = PanicOr.panics ∧
    basicCodeOf sampleDb 3 = some (some []) :=
  ⟨(code_lookup_unreachable sampleDb 0 3 sampleAccount).1,
   (code_lookup_unreachable sampleDb 0 3 sampleAccount).2.2 (by decide)⟩
